import Mathlib

/-!
Verification of the geographic-hierarchy resolution and table-query
construction core of the `api_wrapper` repository
(`src/api_wrapper/census_api/census_api.py`, classes `CensusAPI` and
`CensusDataAPI`; the flat module `src/api_wrapper/census_api.py` is an
older draft of the same code and is noted where it differs).

The embedding models Python dicts as ordered association lists with
Python semantics: inserting an existing key overwrites the value in
place (keeping the key's position), inserting a new key appends it.
Python `KeyError`s at the source's lookup sites are modelled as values
of an explicit error type.
-/

section PyDict

variable {κ : Type} {α : Type} [DecidableEq κ]

/-- Python `d[k]` as a total function: `some` value or `none` (KeyError). -/
def dlookup (d : List (κ × α)) (k : κ) : Option α :=
  (d.find? (fun p => decide (p.1 = k))).map (·.2)

/-- Python `d[k] = v`: overwrite in place if the key exists, else append. -/
def dinsert (d : List (κ × α)) (k : κ) (v : α) : List (κ × α) :=
  if (d.find? (fun p => decide (p.1 = k))).isSome then
    d.map (fun p => if p.1 = k then (k, v) else p)
  else d ++ [(k, v)]

/-- Python `d.update(m)`: insert `m`'s entries into `d` in order. -/
def dupdate (d m : List (κ × α)) : List (κ × α) :=
  m.foldl (fun acc p => dinsert acc p.1 p.2) d

/-- Python `list(d.keys())`. -/
def dkeys (d : List (κ × α)) : List κ :=
  d.map (·.1)

theorem dlookup_nil (k : κ) : dlookup ([] : List (κ × α)) k = none := rfl

theorem dlookup_cons (p : κ × α) (d : List (κ × α)) (k : κ) :
    dlookup (p :: d) k = if p.1 = k then some p.2 else dlookup d k := by
  by_cases h : p.1 = k <;> simp [dlookup, List.find?_cons, h]

theorem dlookup_map_replace (d : List (κ × α)) (a k : κ) (b : α) (hk : k ≠ a) :
    dlookup (d.map (fun p => if p.1 = a then (a, b) else p)) k = dlookup d k := by
  induction d with
  | nil => rfl
  | cons p t ih =>
    by_cases hpa : p.1 = a
    · have hak : ¬ (a = k) := fun h => hk h.symm
      have hpk : ¬ (p.1 = k) := by rw [hpa]; exact hak
      simp only [List.map_cons, hpa, if_true]
      rw [dlookup_cons, dlookup_cons]
      simp only [if_neg hak, if_neg hpk]
      exact ih
    · simp only [List.map_cons, hpa, if_false]
      rw [dlookup_cons, dlookup_cons, ih]

theorem dlookup_map_replace_self (d : List (κ × α)) (a : κ) (b : α) :
    dlookup (d.map (fun p => if p.1 = a then (a, b) else p)) a
      = (dlookup d a).map (fun _ => b) := by
  induction d with
  | nil => rfl
  | cons p t ih =>
    by_cases hpa : p.1 = a
    · simp only [List.map_cons, hpa, if_true]
      rw [dlookup_cons, dlookup_cons]
      simp [hpa]
    · simp only [List.map_cons, hpa, if_false]
      rw [dlookup_cons, dlookup_cons]
      simp [hpa, ih]

theorem dlookup_append_single (d : List (κ × α)) (a k : κ) (b : α)
    (hnone : dlookup d a = none) :
    dlookup (d ++ [(a, b)]) k = if k = a then some b else dlookup d k := by
  induction d with
  | nil =>
    simp only [List.nil_append]
    rw [dlookup_cons]
    by_cases h : k = a
    · simp [h]
    · have hak : ¬ ((a, b).1 = k) := fun hh => h hh.symm
      rw [if_neg hak, if_neg h, dlookup_nil]
  | cons p t ih =>
    rw [List.cons_append, dlookup_cons, dlookup_cons]
    rw [dlookup_cons] at hnone
    by_cases hpa : p.1 = a
    · simp [hpa] at hnone
    · simp only [hpa, if_false] at hnone
      by_cases hpk : p.1 = k
      · have : ¬ (k = a) := fun h => hpa (hpk.trans h)
        simp [hpk, this]
      · simp [hpk, ih hnone]

theorem dlookup_dinsert (d : List (κ × α)) (a k : κ) (b : α) :
    dlookup (dinsert d a b) k = if k = a then some b else dlookup d k := by
  unfold dinsert
  by_cases hmem : (d.find? (fun p => decide (p.1 = a))).isSome
  · simp only [hmem, if_true]
    by_cases hk : k = a
    · subst hk
      rw [dlookup_map_replace_self]
      rcases Option.isSome_iff_exists.mp hmem with ⟨p, hp⟩
      have : dlookup d k = some p.2 := by rw [dlookup, hp]; rfl
      simp [this]
    · rw [dlookup_map_replace d a k b hk]
      simp [hk]
  · have : dlookup d a = none := by
      rw [dlookup]
      rcases Option.not_isSome_iff_eq_none.mp hmem with h
      simp [h]
    simp only [hmem, if_false]
    exact dlookup_append_single d a k b this

theorem dkeys_dinsert (d : List (κ × α)) (a : κ) (b : α) :
    dkeys (dinsert d a b) = if a ∈ dkeys d then dkeys d else dkeys d ++ [a] := by
  unfold dinsert
  have hiff : (d.find? (fun p => decide (p.1 = a))).isSome = true ↔ a ∈ dkeys d := by
    rw [List.find?_isSome]
    constructor
    · rintro ⟨p, hp, hpa⟩
      simp at hpa
      exact hpa ▸ List.mem_map_of_mem (·.1) hp
    · intro h
      rcases List.mem_map.mp h with ⟨p, hp, hpa⟩
      exact ⟨p, hp, by simp [hpa]⟩
  by_cases hmem : (d.find? (fun p => decide (p.1 = a))).isSome
  · have hm : a ∈ dkeys d := hiff.mp hmem
    rw [if_pos hmem, if_pos hm]
    simp only [dkeys, List.map_map]
    apply List.map_congr_left
    intro p _
    by_cases hpa : p.1 = a <;> simp [Function.comp, hpa]
  · have hm : a ∉ dkeys d := fun h => hmem (hiff.mpr h)
    rw [if_neg hmem, if_neg hm]
    simp [dkeys]

theorem dlookup_mem_values (d : List (κ × α)) (k : κ) (c : α)
    (h : dlookup d k = some c) : c ∈ d.map (·.2) := by
  unfold dlookup at h
  rcases Option.map_eq_some'.mp h with ⟨p, hp, hpc⟩
  exact hpc ▸ List.mem_map_of_mem (·.2) (List.mem_of_find?_eq_some hp)

end PyDict

section CodeRegistry

/-- One row of the reference geography sheet (`self.fips_df`): the columns
the source reads are `Summary Level`, `State Code (FIPS)`,
`County Code (FIPS)` and
`Area Name (including legal/statistical area description)`. -/
structure FipsRow where
  summaryLevel : String
  stateCode : String
  countyCode : String
  areaName : String
deriving DecidableEq, Repr

/-- Keys of the Python `county_fips` dict: tuple keys
`(state_fips, county_name)` from the sheet, plain string keys added by the
`{fip: fip}` update. -/
inductive CountyKey where
  | pair (stateFips countyName : String)
  | str (code : String)
deriving DecidableEq, Repr

/-- Source `_get_state_fips_dict`, name-keyed part: rows with `Summary Level`
`"040"`, indexed by area name (pandas `to_dict`: a later duplicate index
overwrites an earlier one). -/
def stateFipsBase (sheet : List FipsRow) : List (String × String) :=
  (sheet.filter (fun r => decide (r.summaryLevel = "040"))).foldl
    (fun d r => dinsert d r.areaName r.stateCode) []

/-- Source `_get_state_fips_dict`: the name-keyed dict updated with
`{fip: fip for fip in state_fips_dict.values()}`. -/
def stateFipsDict (sheet : List FipsRow) : List (String × String) :=
  dupdate (stateFipsBase sheet)
    (((stateFipsBase sheet).map (·.2)).map (fun v => (v, v)))

/-- Source `_get_county_fips_dict`, tuple-keyed part: rows with `Summary Level`
`"050"`, indexed by `(state_fips, county_name)`. -/
def countyFipsBase (sheet : List FipsRow) : List (CountyKey × String) :=
  (sheet.filter (fun r => decide (r.summaryLevel = "050"))).foldl
    (fun d r => dinsert d (CountyKey.pair r.stateCode r.areaName) r.countyCode) []

/-- Source `_get_county_fips_dict`: the tuple-keyed dict updated with
`{fip: fip for fip in county_fips_dict.values()}` (string keys). -/
def countyFipsDict (sheet : List FipsRow) : List (CountyKey × String) :=
  dupdate (countyFipsBase sheet)
    (((countyFipsBase sheet).map (·.2)).map (fun v => (CountyKey.str v, v)))

theorem dlookup_diag_update_of_not_hit {κ : Type} [DecidableEq κ]
    (f : String → κ) (vs : List String) (d : List (κ × String)) (k : κ)
    (h : ∀ v ∈ vs, f v ≠ k) :
    dlookup (dupdate d (vs.map (fun v => (f v, v)))) k = dlookup d k := by
  induction vs generalizing d with
  | nil => rfl
  | cons v t ih =>
    have step : dupdate d ((v :: t).map (fun v => (f v, v)))
        = dupdate (dinsert d (f v) v) (t.map (fun v => (f v, v))) := rfl
    rw [step, ih _ (fun w hw => h w (List.mem_cons_of_mem v hw)),
      dlookup_dinsert]
    have : ¬ (k = f v) := fun hk => h v (List.mem_cons_self v t) hk.symm
    rw [if_neg this]

theorem dlookup_diag_update_of_mem {κ : Type} [DecidableEq κ]
    (f : String → κ) (hinj : Function.Injective f)
    (vs : List String) (d : List (κ × String)) (c : String)
    (hc : c ∈ vs) :
    dlookup (dupdate d (vs.map (fun v => (f v, v)))) (f c) = some c := by
  induction vs generalizing d with
  | nil => cases hc
  | cons v t ih =>
    have step : dupdate d ((v :: t).map (fun v => (f v, v)))
        = dupdate (dinsert d (f v) v) (t.map (fun v => (f v, v))) := rfl
    rw [step]
    by_cases hct : c ∈ t
    · exact ih _ hct
    · have hcv : c = v := by
        rcases List.mem_cons.mp hc with h | h
        · exact h
        · exact absurd h hct
      subst hcv
      rw [dlookup_diag_update_of_not_hit f t _ (f c)
        (fun w hw hwc => hct ((hinj hwc) ▸ hw)), dlookup_dinsert, if_pos rfl]

theorem dlookup_diag_update_value {κ : Type} [DecidableEq κ]
    (f : String → κ) (vs : List String) (d : List (κ × String)) (k : κ)
    (c : String) (h : dlookup (dupdate d (vs.map (fun v => (f v, v)))) k = some c) :
    c ∈ vs ∨ dlookup d k = some c := by
  induction vs generalizing d with
  | nil => exact Or.inr h
  | cons v t ih =>
    have step : dupdate d ((v :: t).map (fun v => (f v, v)))
        = dupdate (dinsert d (f v) v) (t.map (fun v => (f v, v))) := rfl
    rw [step] at h
    rcases ih _ h with hmem | hrest
    · exact Or.inl (List.mem_cons_of_mem v hmem)
    · rw [dlookup_dinsert] at hrest
      by_cases hk : k = f v
      · rw [if_pos hk] at hrest
        have hvc : v = c := Option.some_inj.mp hrest
        exact Or.inl (hvc ▸ List.mem_cons_self v t)
      · rw [if_neg hk] at hrest
        exact Or.inr hrest

end CodeRegistry

/-- Modelled from the spec: two rows of the external reference geography
sheet (fetched from the population-estimates geocodes file, not part of
the repository), covering the spec's worked examples: Colorado is state
`08` and Jefferson County is county `059` within state `08`. -/
def sampleSheet : List FipsRow :=
  [⟨"040", "08", "000", "Colorado"⟩,
   ⟨"050", "08", "059", "Jefferson County"⟩]

/-- C2: for every key mapped to code `c` in the state registry, looking up
`c` itself also yields `c` (codes are fixed points), and likewise in the
county registry via its plain-string code keys; names resolve to their
codes by the same lookup. -/
theorem resolve_code_fixed_point (sheet : List FipsRow) :
    (∀ n c : String, dlookup (stateFipsDict sheet) n = some c →
      dlookup (stateFipsDict sheet) n = some c ∧
      dlookup (stateFipsDict sheet) c = some c) ∧
    (∀ (k : CountyKey) (c : String), dlookup (countyFipsDict sheet) k = some c →
      dlookup (countyFipsDict sheet) k = some c ∧
      dlookup (countyFipsDict sheet) (CountyKey.str c) = some c) := by
  constructor
  · intro n c h
    refine ⟨h, ?_⟩
    have hval : c ∈ (stateFipsBase sheet).map (·.2) := by
      rcases dlookup_diag_update_value (fun v => v) _ _ _ _ h with hm | hbase
      · exact hm
      · exact dlookup_mem_values _ _ _ hbase
    exact dlookup_diag_update_of_mem (fun v => v) (fun _ _ hh => hh) _ _ _ hval
  · intro k c h
    refine ⟨h, ?_⟩
    have hval : c ∈ (countyFipsBase sheet).map (·.2) := by
      rcases dlookup_diag_update_value CountyKey.str _ _ _ _ h with hm | hbase
      · exact hm
      · exact dlookup_mem_values _ _ _ hbase
    exact dlookup_diag_update_of_mem CountyKey.str
      (fun _ _ hh => by injection hh) _ _ _ hval

/-- Witness for C2 on the sample sheet. -/
theorem resolve_code_fixed_point_witness :
    dlookup (stateFipsDict sampleSheet) "Colorado" = some "08" ∧
    dlookup (stateFipsDict sampleSheet) "08" = some "08" ∧
    dlookup (countyFipsDict sampleSheet)
      (CountyKey.pair "08" "Jefferson County") = some "059" ∧
    dlookup (countyFipsDict sampleSheet) (CountyKey.str "059") = some "059" := by
  have h1 : dlookup (stateFipsDict sampleSheet) "Colorado" = some "08" := by decide
  have h2 : dlookup (countyFipsDict sampleSheet)
      (CountyKey.pair "08" "Jefferson County") = some "059" := by decide
  exact ⟨h1, ((resolve_code_fixed_point sampleSheet).1 _ _ h1).2,
    h2, ((resolve_code_fixed_point sampleSheet).2 _ _ h2).2⟩

section TableCatalog

/-- The failure modes of the core, one per Python exception site:
`unknownTable` is the `KeyError` from `self.tables_dict[table_str]`,
`unknownGeography` the `KeyError` from a `state_fips`/`county_fips`
lookup of a supplied name, `missingKey` the `KeyError` from a plain
`kwargs[...]`/dict subscript, and `emptyCatalog` the `NameError` when the
hierarchy loop body never runs. -/
inductive Err where
  | unknownTable (tableAlias : String)
  | unknownGeography (name : String)
  | missingKey (key : String)
  | emptyCatalog
deriving DecidableEq, Repr

/-- An element of the `tables` list passed to `get_data`: either a string
alias or a literal Python dict (the `isinstance(table_str, dict)` case). -/
inductive TableItem where
  | aliasName (s : String)
  | lit (d : List (String × String))
deriving DecidableEq, Repr

/-- One field returned by `censusdata.censustable(survey, year, base_id)`:
a column identifier mapped to its `label` and `concept` metadata. -/
structure MetaField where
  tableId : String
  label : String
  concept : String
deriving DecidableEq, Repr

/-- The external table-metadata source: base table identifier to the
ordered fields of `censusdata.censustable`. -/
def MetaSource : Type := String → List MetaField

/-- Source `self.tables_dict`: the fixed alias-to-base-table map. -/
def tables_dict : List (String × String) :=
  [("pop", "B01003"), ("HI", "B19001"), ("med_HI", "B19013"),
   ("agg_HI", "B19025"), ("age", "B01001")]

/-- Python `table_id.replace("E", "M")`: every occurrence of `E` is
replaced, not only a trailing one. -/
def replaceEM (s : String) : String :=
  String.mk (s.toList.map (fun c => if c = 'E' then 'M' else c))

/-- The estimate/margin expansion loop body of `_parse_table_str`:
`final_table_dict.update({table_id: label, table_id_moe: label_moe})`. -/
def expandFields (fields : List MetaField) : List (String × String) :=
  fields.foldl
    (fun d f =>
      dinsert (dinsert d f.tableId (f.concept ++ "!!" ++ f.label))
        (replaceEM f.tableId) ("MOE!!" ++ (f.concept ++ "!!" ++ f.label)))
    []

/-- Source `_parse_table_str`: a literal dict is returned unchanged; a string is
looked up in `tables_dict` (KeyError when absent) and expanded through the
metadata source. -/
def parse_table_str (meta : MetaSource) (item : TableItem) :
    Except Err (List (String × String)) :=
  match item with
  | .lit d => .ok d
  | .aliasName s =>
    match dlookup tables_dict s with
    | none => .error (.unknownTable s)
    | some baseId => .ok (expandFields (meta baseId))

/-- Left-to-right effectful map, as a Python list comprehension evaluates:
the first failure aborts the whole comprehension. -/
def mapExcept {α β : Type} (f : α → Except Err β) : List α → Except Err (List β)
  | [] => .ok []
  | a :: t =>
    match f a with
    | .error e => .error e
    | .ok b =>
      match mapExcept f t with
      | .error e => .error e
      | .ok bs => .ok (b :: bs)

/-- Source `_get_table_dict`: parse every element of `tables` (the list
comprehension evaluates left to right, so the first failure propagates),
then flatten the per-item dicts with `dict.update`. -/
def get_table_dict (meta : MetaSource) (tables : List TableItem) :
    Except Err (List (String × String)) :=
  match mapExcept (parse_table_str meta) tables with
  | .error e => .error e
  | .ok dicts => .ok (dicts.foldl dupdate [])

/-- Source `_get_table_label_dict`: `tables is None` defaults to
`["pop", "age", "med_HI"]`. -/
def get_table_label_dict (meta : MetaSource) (tables : Option (List TableItem)) :
    Except Err (List (String × String)) :=
  get_table_dict meta
    (tables.getD [.aliasName "pop", .aliasName "age", .aliasName "med_HI"])

end TableCatalog

section HierarchyCatalog

/-- Split a character list at a separator, Python `str.split` style
(splitting the empty string yields one empty field). -/
def splitCharsAux (sep : Char) : List Char → List (List Char)
  | [] => [[]]
  | c :: rest =>
    let r := splitCharsAux sep rest
    if c = sep then [] :: r
    else
      match r with
      | h :: t => (c :: h) :: t
      | [] => [[c]]

/-- Python `name.split("-")` for the hierarchy reference rows. -/
def splitDash (s : String) : List String :=
  (splitCharsAux '-' s.toList).map String.mk

/-- Python `string.lower()` (the reference data is ASCII). -/
def lowerStr (s : String) : String :=
  String.mk (s.toList.map Char.toLower)

/-- Python `level_key.replace(" ", "_")`. -/
def underscore (s : String) : String :=
  String.mk (s.toList.map (fun c => if c = ' ' then '_' else c))

/-- Source `_get_hierarchies`, first dict comprehension: each CSV row name is
split on `-` and lower-cased, and keyed by its last level
(`hierarchy_list[-1]`; `split` never returns an empty list). -/
def hierarchiesPre (rows : List String) : List (String × List String) :=
  rows.foldl
    (fun d name =>
      let lst := (splitDash name).map lowerStr
      dinsert d (lst.getLastD "") lst) []

/-- Source `_get_hierarchies`: derive `block` from `block group` (a `KeyError`,
modelled as `none`, if the reference lacks a `block group` row), replace
spaces by underscores in keys and levels, then add
`all_counties = ["county"]`. -/
def getHierarchies (rows : List String) : Option (List (String × List String)) :=
  match dlookup (hierarchiesPre rows) "block group" with
  | none => none
  | some bg =>
    let withBlock := dinsert (hierarchiesPre rows) "block" (bg ++ ["block"])
    let renamed := withBlock.foldl
      (fun d p => dinsert d (underscore p.1) (p.2.map underscore)) []
    some (dinsert renamed "all_counties" ["county"])

/-- The hierarchy-selection loop of `_parse_hierarchy`: the first
definition all of whose levels are kwarg keys and whose length equals the
number of kwargs; `none` when no definition satisfies the break
condition. -/
def matchHierarchy (hier : List (String × List String))
    (kwargs : List (String × String)) : Option (List String) :=
  (hier.find? (fun p =>
    p.2.all (fun lvl => (dlookup kwargs lvl).isSome)
      && decide (kwargs.length = p.2.length))).map (·.2)

end HierarchyCatalog

section QueryResolver

/-- Python `re.fullmatch(r"[A-Za-z]+", s)`: nonempty, ASCII letters only. -/
def isStateNamePattern (s : String) : Bool :=
  !s.toList.isEmpty && s.toList.all (fun c => c.isAlpha)

/-- Python `re.fullmatch(r"[A-Za-z\s]+", s)`: nonempty, ASCII letters or
whitespace only. -/
def isCountyNamePattern (s : String) : Bool :=
  !s.toList.isEmpty && s.toList.all (fun c => c.isAlpha || c.isWhitespace)

/-- The state branch of `_parse_hierarchy`: a value matching the name
pattern is replaced by its `state_fips` lookup (`KeyError` when absent);
any other value, including codes and `"*"`, passes through unchanged (the
unmatched case only prints). -/
def stateStep (stateFips : List (String × String))
    (kwargs : List (String × String)) : Except Err (List (String × String)) :=
  match dlookup kwargs "state" with
  | none => .ok kwargs
  | some v =>
    if isStateNamePattern v then
      match dlookup stateFips v with
      | none => .error (.unknownGeography v)
      | some fip => .ok (dinsert kwargs "state" fip)
    else .ok kwargs

/-- The county branch of `_parse_hierarchy`: a value matching the county
name pattern is replaced by
`county_fips[kwargs["state"], kwargs["county"]]` (a `KeyError` if
`"state"` is absent, `UnknownGeography` if the pair is not in the
registry); other values pass through. -/
def countyStep (countyFips : List (CountyKey × String))
    (kwargs : List (String × String)) : Except Err (List (String × String)) :=
  match dlookup kwargs "county" with
  | none => .ok kwargs
  | some v =>
    if isCountyNamePattern v then
      match dlookup kwargs "state" with
      | none => .error (.missingKey "state")
      | some s =>
        match dlookup countyFips (CountyKey.pair s v) with
        | none => .error (.unknownGeography v)
        | some fip => .ok (dinsert kwargs "county" fip)
    else .ok kwargs

/-- Source `levels_rename_dict` of `_rename_levels`. -/
def levels_rename_dict : List (String × String) :=
  [("census_tract", "tract"), ("block_group", "block group")]

/-- Rename one level name for the downstream call. -/
def renameLevel (k : String) : String :=
  (dlookup levels_rename_dict k).getD k

/-- Source `_rename_levels`: rename level names, leave values untouched. -/
def renameLevels (lst : List (String × String)) : List (String × String) :=
  lst.map (fun p => (renameLevel p.1, p.2))

/-- Source `hierarchy_fips = [(level, kwargs[level]) for level in hierarchy_list]`
(`KeyError` when a level is not a kwarg). -/
def buildQuery (kwargs : List (String × String)) (levels : List String) :
    Except Err (List (String × String)) :=
  levels.mapM (fun lvl =>
    match dlookup kwargs lvl with
    | none => .error (.missingKey lvl)
    | some v => .ok (lvl, v))

/-- Source `_parse_hierarchy`: resolve state and county names, select a
hierarchy with the first-match loop — falling back to the LAST definition
when the break never fires (`NameError` only when the catalog is empty) —
then build and rename the query. -/
def parse_hierarchy (stateFips : List (String × String))
    (countyFips : List (CountyKey × String))
    (hier : List (String × List String))
    (kwargs : List (String × String)) :
    Except Err (List (String × String)) :=
  match stateStep stateFips kwargs with
  | .error e => .error e
  | .ok kw1 =>
    match countyStep countyFips kw1 with
    | .error e => .error e
    | .ok kw2 =>
      let levelsE : Except Err (List String) :=
        match matchHierarchy hier kw2 with
        | some ls => .ok ls
        | none =>
          match hier.getLast? with
          | some p => .ok p.2
          | none => .error .emptyCatalog
      match levelsE with
      | .error e => .error e
      | .ok levels =>
        match buildQuery kw2 levels with
        | .error e => .error e
        | .ok q => .ok (renameLevels q)

/-- Source `_add_table_labels_row`: `table_labels_row.append(df)` (pandas):
the result's columns are the label-row's columns followed by the raw
table's extra columns; each column's label cell is the label-map entry,
`NaN` (`none`) when the map has no entry. The operation is total — pandas
`append` aligns on the column union and never raises for an unmatched
column. -/
def add_table_labels_row (tableLabelDict : List (String × String))
    (dfCols : List String) : List (String × Option String) :=
  (dkeys tableLabelDict
      ++ dfCols.filter (fun c => decide (c ∉ dkeys tableLabelDict))).map
    (fun c => (c, dlookup tableLabelDict c))

/-- Source `get_data`: expand the tables (defaulting when `None`), then parse the
geography (`_get_acs_dfs` → `_parse_hierarchy`), fetch through the
downstream collaborator, and prepend the label row. -/
def get_data (meta : MetaSource) (stateFips : List (String × String))
    (countyFips : List (CountyKey × String))
    (hier : List (String × List String))
    (downstream : List String → List (String × String) → List String)
    (tables : Option (List TableItem)) (kwargs : List (String × String)) :
    Except Err (List (String × Option String)) :=
  match get_table_label_dict meta tables with
  | .error e => .error e
  | .ok tld =>
    match parse_hierarchy stateFips countyFips hier kwargs with
    | .error e => .error e
    | .ok geo => .ok (add_table_labels_row tld (downstream (dkeys tld) geo))

end QueryResolver

theorem dlookup_eq_none_of_not_mem {κ : Type} {α : Type} [DecidableEq κ]
    (d : List (κ × α)) (k : κ) (h : k ∉ dkeys d) : dlookup d k = none := by
  unfold dlookup
  have : d.find? (fun p => decide (p.1 = k)) = none := by
    rw [List.find?_eq_none]
    intro p hp hpk
    simp at hpk
    exact h (hpk ▸ List.mem_map_of_mem (·.1) hp)
  rw [this]; rfl

theorem not_mem_dkeys_of_dlookup_none {κ : Type} {α : Type} [DecidableEq κ]
    (d : List (κ × α)) (k : κ) (h : dlookup d k = none) : k ∉ dkeys d := by
  intro hmem
  rcases List.mem_map.mp hmem with ⟨p, hp, hpk⟩
  unfold dlookup at h
  rw [Option.map_eq_none'] at h
  rw [List.find?_eq_none] at h
  exact h p hp (by simp [hpk])

/-- Modelled from the spec: the geographic hierarchy reference (the
`geo_hierarchies` CSV is repository data not under `src/`): a delimited
list of hyphen-joined level-name sequences, one hierarchy per row, named
by its finest level. -/
def geoHierarchyRows : List String :=
  ["State", "State-County", "State-County-Census Tract",
   "State-County-Census Tract-Block Group"]

/-- The hierarchy catalog `_get_hierarchies` builds from those rows. -/
def censusHierarchies : List (String × List String) :=
  [("state", ["state"]),
   ("county", ["state", "county"]),
   ("census_tract", ["state", "county", "census_tract"]),
   ("block_group", ["state", "county", "census_tract", "block_group"]),
   ("block", ["state", "county", "census_tract", "block_group", "block"]),
   ("all_counties", ["county"])]

/-- C6: the catalog derives `block` as the `block group` hierarchy's
ordered levels plus a trailing `block` level, and matching the level set
{state, county, census_tract, block_group, block} returns that ordered
list with the `census_tract`→`tract` rename not applied (the internal
spelling `census_tract` is still present; renames happen only in
`_rename_levels` when the GeoQuery is built). -/
theorem block_hierarchy_derived :
    getHierarchies geoHierarchyRows = some censusHierarchies ∧
    dlookup censusHierarchies "block_group"
      = some ["state", "county", "census_tract", "block_group"] ∧
    dlookup censusHierarchies "block"
      = some (["state", "county", "census_tract", "block_group"] ++ ["block"]) ∧
    matchHierarchy censusHierarchies
      [("state", "1"), ("county", "2"), ("census_tract", "3"),
       ("block_group", "4"), ("block", "5")]
      = some ["state", "county", "census_tract", "block_group", "block"] :=
  ⟨rfl, rfl, rfl, rfl⟩

theorem buildQuery_eq_map (kwargs : List (String × String))
    (levels : List String) (v : String → String)
    (hv : ∀ lvl ∈ levels, dlookup kwargs lvl = some (v lvl)) :
    buildQuery kwargs levels
      = .ok (levels.map (fun lvl => (lvl, v lvl))) := by
  induction levels with
  | nil => rfl
  | cons l t ih =>
    have hl := hv l (List.mem_cons_self l t)
    have ht := ih (fun x hx => hv x (List.mem_cons_of_mem l hx))
    unfold buildQuery at ht ⊢
    rw [List.mapM_cons, hl, ht]
    rfl

/-- C8: for EVERY geography keyword set whose resolved form matches a
hierarchy, the GeoQuery is exactly
`[(rename(level), kwargs[level]) for level in matched ordered list]`:
`_parse_hierarchy` returns the matched levels zipped with their kwarg
values, names renamed (`census_tract`→`tract`,
`block_group`→`block group`, every other name unchanged) and values
untouched; on the spec's scenario the result is
[(state,08),(county,059),(tract,011724),(block group,*)]. -/
theorem geo_query_build_and_rename (stateFips : List (String × String))
    (countyFips : List (CountyKey × String))
    (hier : List (String × List String))
    (kwargs kw2 : List (String × String)) (levels : List String)
    (v : String → String)
    (hgeo : (stateStep stateFips kwargs).bind (countyStep countyFips)
      = .ok kw2)
    (hmatch : matchHierarchy hier kw2 = some levels)
    (hv : ∀ lvl ∈ levels, dlookup kw2 lvl = some (v lvl)) :
    buildQuery kw2 levels
      = .ok (levels.map (fun lvl => (lvl, v lvl))) ∧
    parse_hierarchy stateFips countyFips hier kwargs
      = .ok (levels.map (fun lvl => (renameLevel lvl, v lvl))) ∧
    (∀ lst : List (String × String),
      (renameLevels lst).map (·.2) = lst.map (·.2)) ∧
    (∀ k, k ∉ dkeys levels_rename_dict → renameLevel k = k) ∧
    renameLevel "census_tract" = "tract" ∧
    renameLevel "block_group" = "block group" ∧
    getHierarchies geoHierarchyRows = some censusHierarchies ∧
    parse_hierarchy (stateFipsDict sampleSheet) (countyFipsDict sampleSheet)
      censusHierarchies
      [("state", "Colorado"), ("county", "Jefferson County"),
       ("census_tract", "011724"), ("block_group", "*")]
      = .ok [("state", "08"), ("county", "059"), ("tract", "011724"),
             ("block group", "*")] := by
  have hbq : buildQuery kw2 levels
      = .ok (levels.map (fun lvl => (lvl, v lvl))) :=
    buildQuery_eq_map kw2 levels v hv
  refine ⟨hbq, ?_, ?_, ?_, rfl, rfl, rfl, rfl⟩
  · unfold parse_hierarchy
    cases hs : stateStep stateFips kwargs with
    | error e => rw [hs] at hgeo; simp [Except.bind] at hgeo
    | ok kw1 =>
      rw [hs] at hgeo
      have hc : countyStep countyFips kw1 = .ok kw2 := hgeo
      simp only [hc, hmatch, hbq]
      simp [renameLevels, List.map_map, Function.comp]
  · intro lst
    simp [renameLevels]
  · intro k hk
    unfold renameLevel
    rw [dlookup_eq_none_of_not_mem _ _ hk]
    rfl

/-- Witness for C8: the general theorem applied to the spec's scenario-2
keyword set. -/
theorem geo_query_build_and_rename_witness :
    ((stateStep (stateFipsDict sampleSheet)
        [("state", "Colorado"), ("county", "Jefferson County"),
         ("census_tract", "011724"), ("block_group", "*")]).bind
      (countyStep (countyFipsDict sampleSheet))
      = .ok [("state", "08"), ("county", "059"),
             ("census_tract", "011724"), ("block_group", "*")]) ∧
    matchHierarchy censusHierarchies
      [("state", "08"), ("county", "059"),
       ("census_tract", "011724"), ("block_group", "*")]
      = some ["state", "county", "census_tract", "block_group"] ∧
    parse_hierarchy (stateFipsDict sampleSheet) (countyFipsDict sampleSheet)
      censusHierarchies
      [("state", "Colorado"), ("county", "Jefferson County"),
       ("census_tract", "011724"), ("block_group", "*")]
      = .ok (["state", "county", "census_tract", "block_group"].map
          (fun lvl => (renameLevel lvl,
            if lvl = "state" then "08" else if lvl = "county" then "059"
            else if lvl = "census_tract" then "011724" else "*"))) ∧
    renameLevel "state" = "state" := by
  have h := geo_query_build_and_rename (stateFipsDict sampleSheet)
    (countyFipsDict sampleSheet) censusHierarchies
    [("state", "Colorado"), ("county", "Jefferson County"),
     ("census_tract", "011724"), ("block_group", "*")]
    [("state", "08"), ("county", "059"),
     ("census_tract", "011724"), ("block_group", "*")]
    ["state", "county", "census_tract", "block_group"]
    (fun lvl =>
      if lvl = "state" then "08" else if lvl = "county" then "059"
      else if lvl = "census_tract" then "011724" else "*")
    rfl rfl (by decide)
  exact ⟨rfl, rfl, h.2.1, h.2.2.2.1 "state" (by decide)⟩

/-- C1 counterexample: the key set {county, block} is set-equal to no
hierarchy definition's level set (the break condition — every level a
kwarg key and equal sizes — holds for no definition, so `matchHierarchy`
is `none`), yet `_parse_hierarchy` raises no error: it silently falls
back to the last definition (`all_counties`) and builds a query from it. -/
theorem hierarchy_silent_fallback_counterexample :
    matchHierarchy censusHierarchies [("county", "*"), ("block", "01")] = none ∧
    parse_hierarchy (stateFipsDict sampleSheet) (countyFipsDict sampleSheet)
      censusHierarchies [("county", "*"), ("block", "01")]
      = .ok [("county", "*")] :=
  ⟨rfl, rfl⟩

theorem buildQuery_ok_of_all (kwargs : List (String × String))
    (levels : List String)
    (h : ∀ lvl ∈ levels, (dlookup kwargs lvl).isSome) :
    ∃ q, buildQuery kwargs levels = .ok q := by
  induction levels with
  | nil => exact ⟨[], rfl⟩
  | cons lvl t ih =>
    have hl := h lvl (List.mem_cons_self lvl t)
    rcases Option.isSome_iff_exists.mp hl with ⟨v, hv⟩
    rcases ih (fun l hlm => h l (List.mem_cons_of_mem lvl hlm)) with ⟨q, hq⟩
    refine ⟨(lvl, v) :: q, ?_⟩
    unfold buildQuery at hq ⊢
    rw [List.mapM_cons, hv, hq]
    rfl

theorem buildQuery_error_of_missing (kwargs : List (String × String))
    (levels : List String)
    (h : ∃ lvl ∈ levels, dlookup kwargs lvl = none) :
    ∃ lvl ∈ levels, dlookup kwargs lvl = none ∧
      buildQuery kwargs levels = .error (.missingKey lvl) := by
  induction levels with
  | nil => rcases h with ⟨_, h, _⟩; cases h
  | cons l t ih =>
    by_cases hl : dlookup kwargs l = none
    · refine ⟨l, List.mem_cons_self l t, hl, ?_⟩
      unfold buildQuery
      rw [List.mapM_cons, hl]
      rfl
    · rcases h with ⟨lvl, hmem, hnone⟩
      have hmt : lvl ∈ t := by
        rcases List.mem_cons.mp hmem with rfl | hmt
        · exact absurd hnone hl
        · exact hmt
      rcases ih ⟨lvl, hmt, hnone⟩ with ⟨lvl2, hmem2, hnone2, heq⟩
      refine ⟨lvl2, List.mem_cons_of_mem l hmem2, hnone2, ?_⟩
      rcases Option.ne_none_iff_exists'.mp hl with ⟨v, hv⟩
      unfold buildQuery at heq ⊢
      rw [List.mapM_cons, hv, heq]
      rfl

/-- C1 amended: when no hierarchy definition meets the break condition,
`_parse_hierarchy` raises no dedicated hierarchy error: it uses the last
definition in catalog order, failing with a plain key lookup error when
one of that definition's levels is absent from the (resolved) kwargs and
otherwise silently building the query from it; a first-match break means
that with several matching definitions the first is used silently. -/
theorem hierarchy_no_match_fallback (stateFips : List (String × String))
    (countyFips : List (CountyKey × String))
    (hier : List (String × List String))
    (kwargs kw2 : List (String × String)) (p : String × List String)
    (hgeo : (stateStep stateFips kwargs).bind (countyStep countyFips) = .ok kw2)
    (hnone : matchHierarchy hier kw2 = none)
    (hlast : hier.getLast? = some p) :
    parse_hierarchy stateFips countyFips hier kwargs
      = (buildQuery kw2 p.2).map renameLevels ∧
    ((∃ lvl ∈ p.2, dlookup kw2 lvl = none) →
      ∃ lvl, parse_hierarchy stateFips countyFips hier kwargs
        = .error (.missingKey lvl)) ∧
    ((∀ lvl ∈ p.2, (dlookup kw2 lvl).isSome) →
      ∃ q, parse_hierarchy stateFips countyFips hier kwargs
        = .ok (renameLevels q) ∧ buildQuery kw2 p.2 = .ok q) := by
  have hmain : parse_hierarchy stateFips countyFips hier kwargs
      = (buildQuery kw2 p.2).map renameLevels := by
    unfold parse_hierarchy
    cases hs : stateStep stateFips kwargs with
    | error e => rw [hs] at hgeo; simp [Except.bind] at hgeo
    | ok kw1 =>
      rw [hs] at hgeo
      have hc : countyStep countyFips kw1 = .ok kw2 := hgeo
      simp only [hc, hnone, hlast]
      cases buildQuery kw2 p.2 <;> rfl
  refine ⟨hmain, ?_, ?_⟩
  · intro hmiss
    rcases buildQuery_error_of_missing kw2 p.2 hmiss with ⟨lvl, _, _, heq⟩
    exact ⟨lvl, by rw [hmain, heq]; rfl⟩
  · intro hall
    rcases buildQuery_ok_of_all kw2 p.2 hall with ⟨q, hq⟩
    exact ⟨q, by rw [hmain, hq]; rfl, hq⟩

/-- Witness for the C1 fallback theorem on the concrete no-match input. -/
theorem hierarchy_no_match_fallback_witness :
    ((stateStep (stateFipsDict sampleSheet) [("county", "*"), ("block", "01")]).bind
        (countyStep (countyFipsDict sampleSheet))
      = .ok [("county", "*"), ("block", "01")]) ∧
    matchHierarchy censusHierarchies [("county", "*"), ("block", "01")] = none ∧
    censusHierarchies.getLast? = some ("all_counties", ["county"]) ∧
    parse_hierarchy (stateFipsDict sampleSheet) (countyFipsDict sampleSheet)
      censusHierarchies [("county", "*"), ("block", "01")]
      = (buildQuery [("county", "*"), ("block", "01")] ["county"]).map
          renameLevels :=
  ⟨rfl, rfl, rfl,
    (hierarchy_no_match_fallback (stateFipsDict sampleSheet)
      (countyFipsDict sampleSheet) censusHierarchies
      [("county", "*"), ("block", "01")] [("county", "*"), ("block", "01")]
      ("all_counties", ["county"]) rfl rfl rfl).1⟩

/-- C5: a supplied place name (value matching the alphabetic pattern)
absent from the loaded registry makes the resolution fail with the
unknown-geography error, and any state/county-step failure propagates
unchanged out of `_parse_hierarchy` with no partial result. -/
theorem unknown_geography_error (stateFips : List (String × String))
    (countyFips : List (CountyKey × String))
    (hier : List (String × List String))
    (kwargs : List (String × String)) (v : String) :
    (dlookup kwargs "state" = some v → isStateNamePattern v = true →
      dlookup stateFips v = none →
      stateStep stateFips kwargs = .error (.unknownGeography v)) ∧
    (∀ s, dlookup kwargs "county" = some v → isCountyNamePattern v = true →
      dlookup kwargs "state" = some s →
      dlookup countyFips (CountyKey.pair s v) = none →
      countyStep countyFips kwargs = .error (.unknownGeography v)) ∧
    (∀ e, stateStep stateFips kwargs = .error e →
      parse_hierarchy stateFips countyFips hier kwargs = .error e) ∧
    (∀ kw1 e, stateStep stateFips kwargs = .ok kw1 →
      countyStep countyFips kw1 = .error e →
      parse_hierarchy stateFips countyFips hier kwargs = .error e) := by
  refine ⟨?_, ?_, ?_, ?_⟩
  · intro h1 h2 h3
    unfold stateStep
    rw [h1]
    simp [h2, h3]
  · intro s h1 h2 h3 h4
    unfold countyStep
    rw [h1]
    simp [h2, h3, h4]
  · intro e he
    unfold parse_hierarchy
    rw [he]
  · intro kw1 e h1 h2
    unfold parse_hierarchy
    simp only [h1, h2]

/-- Witness for C5: the name `Utopia` is alphabetic but not in the
sample registry. -/
theorem unknown_geography_error_witness :
    dlookup [("state", "Utopia")] "state" = some "Utopia" ∧
    isStateNamePattern "Utopia" = true ∧
    dlookup (stateFipsDict sampleSheet) "Utopia" = none ∧
    stateStep (stateFipsDict sampleSheet) [("state", "Utopia")]
      = .error (.unknownGeography "Utopia") ∧
    parse_hierarchy (stateFipsDict sampleSheet) (countyFipsDict sampleSheet)
      censusHierarchies [("state", "Utopia")]
      = .error (.unknownGeography "Utopia") := by
  have h := unknown_geography_error (stateFipsDict sampleSheet)
    (countyFipsDict sampleSheet) censusHierarchies [("state", "Utopia")] "Utopia"
  have hs := h.1 rfl rfl rfl
  exact ⟨rfl, rfl, rfl, hs, h.2.2.1 _ hs⟩

theorem parse_table_str_error_shape (meta : MetaSource) (item : TableItem)
    (e : Err) (h : parse_table_str meta item = .error e) :
    ∃ a, e = .unknownTable a ∧ dlookup tables_dict a = none := by
  cases item with
  | lit d => simp [parse_table_str] at h
  | aliasName s =>
    cases hl : dlookup tables_dict s with
    | none =>
      simp only [parse_table_str, hl] at h
      injection h with h
      exact ⟨s, h.symm, hl⟩
    | some b =>
      simp only [parse_table_str, hl] at h
      exact Except.noConfusion h

theorem mapExcept_error_of_exists {α β : Type} (f : α → Except Err β)
    (l : List α) (h : ∃ x ∈ l, ∃ e, f x = .error e) :
    ∃ e, mapExcept f l = .error e ∧ ∃ x ∈ l, f x = .error e := by
  induction l with
  | nil => rcases h with ⟨x, hx, _⟩; cases hx
  | cons a t ih =>
    cases hfa : f a with
    | error e =>
      refine ⟨e, ?_, a, List.mem_cons_self a t, hfa⟩
      simp only [mapExcept, hfa]
    | ok b =>
      have hex : ∃ x ∈ t, ∃ e, f x = .error e := by
        rcases h with ⟨x, hx, e, he⟩
        rcases List.mem_cons.mp hx with rfl | hxt
        · rw [hfa] at he; cases he
        · exact ⟨x, hxt, e, he⟩
      rcases ih hex with ⟨e, hme, x, hx, hfx⟩
      refine ⟨e, ?_, x, List.mem_cons_of_mem a hx, hfx⟩
      simp only [mapExcept, hfa, hme]

theorem mapExcept_append_error {α β : Type} (f : α → Except Err β)
    (l1 l2 : List α) (ds : List β) (e : Err)
    (h1 : mapExcept f l1 = .ok ds) (h2 : mapExcept f l2 = .error e) :
    mapExcept f (l1 ++ l2) = .error e := by
  induction l1 generalizing ds with
  | nil => exact h2
  | cons a t ih =>
    simp only [mapExcept] at h1
    simp only [List.cons_append, mapExcept]
    cases hfa : f a with
    | error e2 =>
      rw [hfa] at h1
      exact Except.noConfusion h1
    | ok b =>
      rw [hfa] at h1
      simp only []
      cases hmt : mapExcept f t with
      | error e2 =>
        rw [hmt] at h1
        exact Except.noConfusion h1
      | ok ds2 =>
        rw [List.append_eq, ih ds2 hmt]

/-- C4: a tables list containing an alias with no catalog entry makes
`get_data` fail with the unknown-table error for EVERY geography keyword
set, registry and hierarchy catalog — geography resolution is never
performed and no partial work escapes; the first failing alias (after a
prefix that expands successfully) names the error. -/
theorem unknown_table_fail_fast (meta : MetaSource)
    (stateFips : List (String × String)) (countyFips : List (CountyKey × String))
    (hier : List (String × List String))
    (downstream : List String → List (String × String) → List String) :
    (∀ tables : List TableItem,
      (∃ item ∈ tables, ∃ b, item = TableItem.aliasName b ∧
        dlookup tables_dict b = none) →
      ∀ kwargs, ∃ b, dlookup tables_dict b = none ∧
        get_data meta stateFips countyFips hier downstream (some tables) kwargs
          = .error (.unknownTable b)) ∧
    (∀ (ts1 ts2 : List TableItem) (a : String)
        (ds : List (List (String × String))),
      mapExcept (parse_table_str meta) ts1 = .ok ds →
      dlookup tables_dict a = none →
      ∀ kwargs,
        get_data meta stateFips countyFips hier downstream
          (some (ts1 ++ TableItem.aliasName a :: ts2)) kwargs
          = .error (.unknownTable a)) := by
  constructor
  · intro tables hcont kwargs
    have hex : ∃ x ∈ tables, ∃ e, parse_table_str meta x = .error e := by
      rcases hcont with ⟨item, hmem, b, rfl, hb⟩
      refine ⟨_, hmem, .unknownTable b, ?_⟩
      simp only [parse_table_str, hb]
    rcases mapExcept_error_of_exists _ _ hex with ⟨e, hme, x, _, hfx⟩
    rcases parse_table_str_error_shape meta x e hfx with ⟨b, rfl, hb⟩
    refine ⟨b, hb, ?_⟩
    unfold get_data get_table_label_dict get_table_dict
    simp only [Option.getD_some, hme]
  · intro ts1 ts2 a ds hok ha kwargs
    have hpa : parse_table_str meta (TableItem.aliasName a)
        = .error (.unknownTable a) := by
      simp only [parse_table_str, ha]
    have hcons : mapExcept (parse_table_str meta) (TableItem.aliasName a :: ts2)
        = .error (.unknownTable a) := by
      simp only [mapExcept, hpa]
    have hme := mapExcept_append_error (parse_table_str meta) ts1
      (TableItem.aliasName a :: ts2) ds (.unknownTable a) hok hcons
    unfold get_data get_table_label_dict get_table_dict
    simp only [Option.getD_some, hme]

/-- Witness for C4 on the spec's scenario 3 input. -/
theorem unknown_table_fail_fast_witness :
    (mapExcept (parse_table_str (fun _ => [])) ([] : List TableItem)
      = .ok ([] : List (List (String × String)))) ∧
    dlookup tables_dict "not_a_table" = none ∧
    get_data (fun _ => []) (stateFipsDict sampleSheet)
      (countyFipsDict sampleSheet) censusHierarchies (fun _ _ => [])
      (some ([] ++ TableItem.aliasName "not_a_table" :: []))
      [("state", "Colorado")]
      = .error (.unknownTable "not_a_table") :=
  ⟨rfl, rfl,
    (unknown_table_fail_fast (fun _ => []) (stateFipsDict sampleSheet)
      (countyFipsDict sampleSheet) censusHierarchies (fun _ _ => [])).2
      [] [] "not_a_table" [] rfl rfl [("state", "Colorado")]⟩

/-- C10: calling `get_data` with the tables list omitted (`None`) behaves
exactly as supplying the default alias list `["pop", "age", "med_HI"]`. -/
theorem default_tables_when_none (meta : MetaSource)
    (stateFips : List (String × String)) (countyFips : List (CountyKey × String))
    (hier : List (String × List String))
    (downstream : List String → List (String × String) → List String)
    (kwargs : List (String × String)) :
    get_data meta stateFips countyFips hier downstream none kwargs
      = get_data meta stateFips countyFips hier downstream
          (some [.aliasName "pop", .aliasName "age", .aliasName "med_HI"])
          kwargs := rfl

/-- C9 counterexample: a raw table with a column (`B`) absent from the
label map does not make the labeling step fail — `_add_table_labels_row`
(pandas `append`) returns normally and column `B` is kept with an empty
label cell, end to end through `get_data`. -/
theorem unlabeled_column_counterexample :
    dlookup [("A", "a")] "B" = none ∧
    add_table_labels_row [("A", "a")] ["A", "B"]
      = [("A", some "a"), ("B", none)] ∧
    get_data (fun _ => []) (stateFipsDict sampleSheet)
      (countyFipsDict sampleSheet) censusHierarchies (fun _ _ => ["A", "B"])
      (some [.lit [("A", "a")]]) [("state", "*")]
      = .ok [("A", some "a"), ("B", none)] :=
  ⟨rfl, rfl, rfl⟩

/-- C9 amended: the labeling step is total; a returned column with no
label-map entry is kept in the output with a missing (`none`) label cell
rather than raising an error. (The older draft module's `get_data`
relabels with `table_label_dict[col]` and does raise a lookup error.) -/
theorem unlabeled_column_kept (tableLabelDict : List (String × String))
    (cols : List String) (c : String) (hc : c ∈ cols)
    (hnone : dlookup tableLabelDict c = none) :
    (c, (none : Option String)) ∈ add_table_labels_row tableLabelDict cols ∧
    c ∈ (add_table_labels_row tableLabelDict cols).map (·.1) := by
  have hnk : c ∉ dkeys tableLabelDict :=
    not_mem_dkeys_of_dlookup_none tableLabelDict c hnone
  have hmem : c ∈ dkeys tableLabelDict
      ++ cols.filter (fun c => decide (c ∉ dkeys tableLabelDict)) := by
    apply List.mem_append_right
    exact List.mem_filter.mpr ⟨hc, by simp [hnk]⟩
  have hpair : (c, dlookup tableLabelDict c)
      ∈ add_table_labels_row tableLabelDict cols :=
    List.mem_map_of_mem (fun c => (c, dlookup tableLabelDict c)) hmem
  rw [hnone] at hpair
  refine ⟨hpair, ?_⟩
  exact List.mem_map_of_mem (·.1) hpair

/-- Witness for the C9 amended theorem. -/
theorem unlabeled_column_kept_witness :
    "B" ∈ ["A", "B"] ∧ dlookup [("A", "a")] "B" = none ∧
    ("B", (none : Option String)) ∈ add_table_labels_row [("A", "a")] ["A", "B"] :=
  ⟨by decide, rfl,
    (unlabeled_column_kept [("A", "a")] ["A", "B"] "B" (by decide) rfl).1⟩

/-- The merge policy the spec claims for `expand_many`: on an identifier
collision the LAST item's label wins — the value of the last entry with
the key among the concatenated per-item entries. -/
def lastWinsLookup (entries : List (String × String)) (k : String) :
    Option String :=
  (entries.reverse.find? (fun p => decide (p.1 = k))).map (·.2)

/-- The column order the spec claims: identifiers in first-seen order. -/
def firstSeenKeys (ks : List String) : List String :=
  ks.foldl (fun acc k => if k ∈ acc then acc else acc ++ [k]) []

theorem foldl_dupdate_flatten (ds : List (List (String × String)))
    (d : List (String × String)) :
    ds.foldl dupdate d = dupdate d ds.flatten := by
  induction ds generalizing d with
  | nil => rfl
  | cons m t ih =>
    simp only [List.foldl_cons, List.flatten_cons]
    rw [ih]
    unfold dupdate
    rw [List.foldl_append]

theorem dlookup_foldl_dinsert (l acc : List (String × String)) (k : String) :
    dlookup (l.foldl (fun a p => dinsert a p.1 p.2) acc) k
      = (lastWinsLookup l k).orElse (fun _ => dlookup acc k) := by
  induction l generalizing acc with
  | nil => rfl
  | cons p t ih =>
    simp only [List.foldl_cons]
    rw [ih]
    have hstep : dlookup (dinsert acc p.1 p.2) k
        = if k = p.1 then some p.2 else dlookup acc k :=
      dlookup_dinsert acc p.1 k p.2
    have hlast : lastWinsLookup (p :: t) k
        = (lastWinsLookup t k).orElse
            (fun _ => if k = p.1 then some p.2 else none) := by
      unfold lastWinsLookup
      simp only [List.reverse_cons, List.find?_append]
      cases hf : List.find? (fun q => decide (q.1 = k)) t.reverse with
      | some q => rfl
      | none =>
        by_cases hpk : p.1 = k
        · simp [List.find?_cons, hpk, Option.orElse]
        · have hkp : ¬ (k = p.1) := fun h => hpk h.symm
          simp [List.find?_cons, hpk, hkp, Option.orElse]
    rw [hstep, hlast]
    cases hl : lastWinsLookup t k with
    | some q => rfl
    | none =>
      by_cases hpk : k = p.1
      · simp [Option.orElse, hpk]
      · simp [Option.orElse, hpk]

theorem dkeys_foldl_dinsert (l acc : List (String × String)) :
    dkeys (l.foldl (fun a p => dinsert a p.1 p.2) acc)
      = (l.map (·.1)).foldl
          (fun a k => if k ∈ a then a else a ++ [k]) (dkeys acc) := by
  induction l generalizing acc with
  | nil => rfl
  | cons p t ih =>
    simp only [List.foldl_cons, List.map_cons]
    rw [ih, dkeys_dinsert]

/-- C7: `_get_table_dict` merges the per-item expansions with
`dict.update`: the merged dict looks up to the LAST item's value on an
identifier collision, its key order is first-seen order across the
concatenated items (deterministic column ordering), and a literal
dict item contributes itself unchanged. -/
theorem expand_many_merge (meta : MetaSource) (tables : List TableItem)
    (ds : List (List (String × String)))
    (h : mapExcept (parse_table_str meta) tables = .ok ds) :
    get_table_dict meta tables = .ok (dupdate [] ds.flatten) ∧
    (∀ k, dlookup (dupdate [] ds.flatten) k = lastWinsLookup ds.flatten k) ∧
    dkeys (dupdate [] ds.flatten) = firstSeenKeys (ds.flatten.map (·.1)) ∧
    (∀ d, parse_table_str meta (.lit d) = .ok d) := by
  refine ⟨?_, ?_, ?_, fun d => rfl⟩
  · simp only [get_table_dict, h]
    rw [foldl_dupdate_flatten]
  · intro k
    unfold dupdate
    rw [dlookup_foldl_dinsert]
    cases lastWinsLookup ds.flatten k <;> simp [Option.orElse, dlookup_nil]
  · unfold dupdate
    rw [dkeys_foldl_dinsert]
    rfl

/-- Witness for C7 with a colliding identifier `A` across two literal
items. -/
theorem expand_many_merge_witness :
    (mapExcept (parse_table_str (fun _ => []))
        [TableItem.lit [("A", "1")], TableItem.lit [("A", "2"), ("B", "3")]]
      = .ok [[("A", "1")], [("A", "2"), ("B", "3")]]) ∧
    get_table_dict (fun _ => [])
        [TableItem.lit [("A", "1")], TableItem.lit [("A", "2"), ("B", "3")]]
      = .ok (dupdate []
          ([[("A", "1")], [("A", "2"), ("B", "3")]] :
            List (List (String × String))).flatten) :=
  ⟨rfl, (expand_many_merge (fun _ => [])
      [TableItem.lit [("A", "1")], TableItem.lit [("A", "2"), ("B", "3")]]
      [[("A", "1")], [("A", "2"), ("B", "3")]] rfl).1⟩

/-- Metadata with a realistic race-iteration style identifier: the base
table identifier itself ends in `E`, so the column identifier contains an
interior `E` besides the trailing one. -/
def raceIterMeta : MetaSource := fun b =>
  if b = "B19001" then [⟨"B19001E_001E", "l", "c"⟩] else []

/-- C3 counterexample: for the field identifier `B19001E_001E` (which ends
in `E`), `_parse_table_str` emits the sibling `B19001M_001M` — Python
`replace("E", "M")` substitutes EVERY `E` — and the mapping does NOT
contain the trailing-substitution sibling `B19001E_001M` the claim
requires. -/
theorem moe_trailing_substitution_counterexample :
    parse_table_str raceIterMeta (.aliasName "HI")
      = .ok [("B19001E_001E", "c!!l"), ("B19001M_001M", "MOE!!c!!l")] ∧
    dlookup [("B19001E_001E", "c!!l"), ("B19001M_001M", "MOE!!c!!l")]
      "B19001E_001M" = none :=
  ⟨rfl, rfl⟩

/-- An identifier whose only `E` is its final character (the shape of the
spec's `<table><sequence>E` pattern when the table part is `E`-free). -/
def onlyFinalE (s : String) : Prop :=
  ∃ w : List Char, s.toList = w ++ ['E'] ∧ 'E' ∉ w

theorem string_toList_inj (s t : String) (h : s.toList = t.toList) :
    s = t := by
  cases s with
  | mk d1 =>
    cases t with
    | mk d2 =>
      have hd : d1 = d2 := by simpa [String.toList] using h
      rw [hd]

theorem replaceEM_spec (s : String) (h : onlyFinalE s) :
    ∃ w : List Char, s.toList = w ++ ['E'] ∧ 'E' ∉ w ∧
      (replaceEM s).toList = w ++ ['M'] := by
  rcases h with ⟨w, hw, hnw⟩
  refine ⟨w, hw, hnw, ?_⟩
  show (s.toList.map (fun c => if c = 'E' then 'M' else c)) = w ++ ['M']
  rw [hw, List.map_append]
  have h1 : List.map (fun c => if c = 'E' then 'M' else c) w = List.map id w :=
    List.map_congr_left (fun c hc => by
      have hne : c ≠ 'E' := fun hce => hnw (hce ▸ hc)
      simp [hne])
  rw [h1, List.map_id]
  rfl

theorem mem_E_of_onlyFinalE (s : String) (h : onlyFinalE s) :
    'E' ∈ s.toList := by
  rcases h with ⟨w, hw, _⟩
  rw [hw]
  exact List.mem_append_right w (List.mem_singleton.mpr rfl)

theorem not_mem_E_replaceEM (s : String) (h : onlyFinalE s) :
    'E' ∉ (replaceEM s).toList := by
  rcases replaceEM_spec s h with ⟨w, _, hnw, hr⟩
  rw [hr]
  intro hmem
  rcases List.mem_append.mp hmem with hmem | hmem
  · exact hnw hmem
  · simp at hmem
  
theorem ne_of_E_mem_not_mem (s t : String) (hs : 'E' ∈ s.toList)
    (ht : 'E' ∉ t.toList) : s ≠ t := by
  intro h
  exact ht (h ▸ hs)

theorem replaceEM_inj_onlyFinalE (s t : String) (hs : onlyFinalE s)
    (ht : onlyFinalE t) (h : replaceEM s = replaceEM t) : s = t := by
  rcases replaceEM_spec s hs with ⟨w1, hw1, _, hr1⟩
  rcases replaceEM_spec t ht with ⟨w2, hw2, _, hr2⟩
  have : w1 ++ ['M'] = w2 ++ ['M'] := by rw [← hr1, ← hr2, h]
  have hw : w1 = w2 := by
    have := congrArg List.dropLast this
    simpa [List.dropLast_concat] using this
  apply string_toList_inj
  rw [hw1, hw2, hw]

theorem dinsert_of_not_mem {κ : Type} {α : Type} [DecidableEq κ]
    (d : List (κ × α)) (a : κ) (b : α) (h : a ∉ dkeys d) :
    dinsert d a b = d ++ [(a, b)] := by
  unfold dinsert
  have hf : d.find? (fun p => decide (p.1 = a)) = none := by
    rw [List.find?_eq_none]
    intro p hp hpa
    simp at hpa
    exact h (hpa ▸ List.mem_map_of_mem (·.1) hp)
  simp [hf]

/-- The estimate/margin pair one metadata field contributes, estimate
first. -/
def estPair (f : MetaField) : List (String × String) :=
  [(f.tableId, f.concept ++ "!!" ++ f.label),
   (replaceEM f.tableId, "MOE!!" ++ (f.concept ++ "!!" ++ f.label))]

theorem expandFields_foldl (fields : List MetaField)
    (acc : List (String × String))
    (hE : ∀ f ∈ fields, onlyFinalE f.tableId)
    (hnodup : (fields.map (·.tableId)).Nodup)
    (hacc : ∀ f ∈ fields,
      f.tableId ∉ dkeys acc ∧ replaceEM f.tableId ∉ dkeys acc) :
    fields.foldl
      (fun d f =>
        dinsert (dinsert d f.tableId (f.concept ++ "!!" ++ f.label))
          (replaceEM f.tableId) ("MOE!!" ++ (f.concept ++ "!!" ++ f.label)))
      acc
      = acc ++ fields.flatMap estPair := by
  induction fields generalizing acc with
  | nil => simp
  | cons f t ih =>
    have hEf : onlyFinalE f.tableId := hE f (List.mem_cons_self f t)
    have haccf := hacc f (List.mem_cons_self f t)
    simp only [List.map_cons] at hnodup
    have hnd := List.nodup_cons.mp hnodup
    have hEmem : 'E' ∈ f.tableId.toList := mem_E_of_onlyFinalE _ hEf
    have hEnot : 'E' ∉ (replaceEM f.tableId).toList := not_mem_E_replaceEM _ hEf
    have hne : f.tableId ≠ replaceEM f.tableId :=
      ne_of_E_mem_not_mem _ _ hEmem hEnot
    have hins1 : dinsert acc f.tableId (f.concept ++ "!!" ++ f.label)
        = acc ++ [(f.tableId, f.concept ++ "!!" ++ f.label)] :=
      dinsert_of_not_mem _ _ _ haccf.1
    have hins2 : dinsert (acc ++ [(f.tableId, f.concept ++ "!!" ++ f.label)])
          (replaceEM f.tableId) ("MOE!!" ++ (f.concept ++ "!!" ++ f.label))
        = acc ++ [(f.tableId, f.concept ++ "!!" ++ f.label)]
            ++ [(replaceEM f.tableId,
                 "MOE!!" ++ (f.concept ++ "!!" ++ f.label))] := by
      apply dinsert_of_not_mem
      intro hmem
      simp only [dkeys, List.map_append, List.mem_append, List.map_cons,
        List.map_nil, List.mem_cons, List.not_mem_nil, or_false] at hmem
      rcases hmem with hmem | hmem
      · exact haccf.2 hmem
      · exact hne hmem.symm
    have hnotmem : ∀ x : String, x ∉ dkeys acc → x ≠ f.tableId →
        x ≠ replaceEM f.tableId →
        x ∉ dkeys (acc ++ [(f.tableId, f.concept ++ "!!" ++ f.label)]
          ++ [(replaceEM f.tableId,
               "MOE!!" ++ (f.concept ++ "!!" ++ f.label))]) := by
      intro x hx h1 h2 hmem
      simp only [dkeys, List.map_append, List.mem_append, List.map_cons,
        List.map_nil, List.mem_cons, List.not_mem_nil, or_false] at hmem
      simp only [dkeys] at hx
      rcases hmem with (hmem | hmem) | hmem
      · exact hx hmem
      · exact h1 hmem
      · exact h2 hmem
    simp only [List.foldl_cons]
    rw [hins1, hins2, ih _ (fun g hg => hE g (List.mem_cons_of_mem f hg)) hnd.2]
    · simp [estPair, List.append_assoc]
    · intro g hg
      have hEg : onlyFinalE g.tableId := hE g (List.mem_cons_of_mem f hg)
      have haccg := hacc g (List.mem_cons_of_mem f hg)
      have hgf : g.tableId ≠ f.tableId := by
        intro h
        exact hnd.1 (h ▸ List.mem_map_of_mem (·.tableId) hg)
      have hgE : 'E' ∈ g.tableId.toList := mem_E_of_onlyFinalE _ hEg
      have hgEnot : 'E' ∉ (replaceEM g.tableId).toList :=
        not_mem_E_replaceEM _ hEg
      constructor
      · exact hnotmem g.tableId haccg.1 hgf
          (ne_of_E_mem_not_mem _ _ hgE hEnot)
      · refine hnotmem (replaceEM g.tableId) haccg.2
          (ne_of_E_mem_not_mem _ _ hEmem hgEnot).symm ?_
        intro h
        exact hgf (replaceEM_inj_onlyFinalE _ _ hEg hEf h)

theorem length_flatMap_estPair (fields : List MetaField) :
    (fields.flatMap estPair).length = 2 * fields.length := by
  induction fields with
  | nil => rfl
  | cons f t ih =>
    simp only [List.flatMap_cons, List.length_append, ih, estPair,
      List.length_cons, List.length_nil]
    omega

/-- C3 amended: an alias expansion pairs each metadata field's estimate
entry `(id, concept!!label)` with a margin sibling whose identifier is
obtained by replacing EVERY `E` by `M` (which coincides with substituting
the trailing `E` exactly when the identifier's only `E` is the final
one), labelled `MOE!!concept!!label`, estimate inserted first; when every
field identifier's only `E` is final and identifiers are distinct, the
mapping is exactly the concatenation of those pairs and has even size
`2 × #fields`. -/
theorem moe_pairing_amended (meta : MetaSource) (a baseId : String)
    (hbase : dlookup tables_dict a = some baseId)
    (hE : ∀ f ∈ meta baseId, onlyFinalE f.tableId)
    (hnodup : ((meta baseId).map (·.tableId)).Nodup) :
    parse_table_str meta (.aliasName a)
      = .ok ((meta baseId).flatMap estPair) ∧
    ((meta baseId).flatMap estPair).length = 2 * (meta baseId).length ∧
    (∀ f ∈ meta baseId,
      (f.tableId, f.concept ++ "!!" ++ f.label)
          ∈ (meta baseId).flatMap estPair ∧
      (replaceEM f.tableId, "MOE!!" ++ (f.concept ++ "!!" ++ f.label))
          ∈ (meta baseId).flatMap estPair) := by
  refine ⟨?_, length_flatMap_estPair _, ?_⟩
  · simp only [parse_table_str, hbase]
    unfold expandFields
    rw [expandFields_foldl (meta baseId) [] hE hnodup
      (fun f _ => ⟨List.not_mem_nil _, List.not_mem_nil _⟩)]
    rfl
  · intro f hf
    constructor
    · exact List.mem_flatMap.mpr ⟨f, hf, List.mem_cons_self _ _⟩
    · exact List.mem_flatMap.mpr
        ⟨f, hf, List.mem_cons_of_mem _ (List.mem_cons_self _ _)⟩

/-- Witness for C3 amended on the population table's single field. -/
theorem moe_pairing_amended_witness :
    dlookup tables_dict "pop" = some "B01003" ∧
    onlyFinalE "B01003_001E" ∧
    parse_table_str
        (fun b => if b = "B01003"
          then [⟨"B01003_001E", "Total", "TOTAL POPULATION"⟩] else [])
        (.aliasName "pop")
      = .ok (([⟨"B01003_001E", "Total", "TOTAL POPULATION"⟩] :
          List MetaField).flatMap estPair) := by
  have hE : onlyFinalE "B01003_001E" :=
    ⟨['B', '0', '1', '0', '0', '3', '_', '0', '0', '1'], rfl, by decide⟩
  refine ⟨rfl, hE, ?_⟩
  exact (moe_pairing_amended
    (fun b => if b = "B01003"
      then [⟨"B01003_001E", "Total", "TOTAL POPULATION"⟩] else [])
    "pop" "B01003" rfl
    (fun f hf => by
      rcases List.mem_singleton.mp hf with rfl
      exact hE)
    (by simp)).1
